import Mathlib

/-!
Verification of the table-formatting utility `db-dump.py` (Tools/quippy/scripts).

The program is shallowly embedded below.  Python strings are modelled as
`List Char` (so that slicing, splitting and length arithmetic are fully
executable and decidable); Python ints as `ℤ`, the numeric array entries as
`ℚ`, and the two square roots computed by the `fmax` and `size` accessors as
`Real.sqrt` over an executable rational radicand.  Fallible code returns
`Except` with one constructor per Python exception class that can escape.
-/

set_option maxHeartbeats 1000000

namespace DbDump

/-- Python strings are modelled as lists of characters. -/
abbrev Str := List Char

/-- Convenience conversion from a Lean string literal to the model type. -/
def chars (s : String) : Str := s.toList

/-- `txt.split(',')` from Python: always non-empty, `"".split(',') == ['']`. -/
def splitOnComma : Str → List Str
  | [] => [[]]
  | c :: cs =>
    if c = ',' then [] :: splitOnComma cs
    else
      match splitOnComma cs with
      | [] => [[c]]
      | t :: ts => (c :: t) :: ts

/-- Exceptions that can escape the column-spec resolution in
`Formatter.__init__` (db-dump.py lines 45-61). -/
inductive ResolveErr
  | indexErr   -- `col[0]` on an empty token
  | valueErr   -- `list.remove` of an absent name
  deriving DecidableEq, Repr

/-- The default column list of `Formatter.__init__` (db-dump.py lines 48-50). -/
def defaultColumns : List Str :=
  [chars "id", chars "age", chars "user", chars "formula", chars "calc",
   chars "energy", chars "fmax", chars "pbc", chars "size", chars "keywords",
   chars "charge", chars "mass", chars "fixed", chars "smax", chars "magmom",
   chars "cell"]

/-- Python `list.remove`: delete the first occurrence, `ValueError` if absent. -/
def removeFirst : List Str → Str → Except ResolveErr (List Str)
  | [], _ => .error .valueErr
  | x :: xs, y => if x = y then .ok xs else (removeFirst xs y).map (x :: ·)

/-- One iteration of the token loop in `Formatter.__init__`
(db-dump.py lines 57-61): `-name` removes, anything else is appended after
stripping leading `+` characters; an empty token raises `IndexError` at
`col[0]`. -/
def procToken (acc : List Str) (col : Str) : Except ResolveErr (List Str) :=
  match col with
  | [] => .error .indexErr
  | ch :: rest =>
    if ch = '-' then removeFirst acc rest
    else .ok (acc ++ [col.dropWhile (· = '+')])

/-- The token loop of `Formatter.__init__`, short-circuiting on the first
exception exactly as the Python loop does. -/
def procCols (acc : List Str) : List Str → Except ResolveErr (List Str)
  | [] => .ok acc
  | c :: cs =>
    match procToken acc c with
    | .error e => .error e
    | .ok acc2 => procCols acc2 cs

/-- Column-spec resolution of `Formatter.__init__` (db-dump.py lines 52-61):
`None` or empty keeps the default list; a leading `+` is stripped and the
defaults are kept; a leading `-` keeps the defaults (unstripped spec); any
other first character clears the list (pure replacement). -/
def resolveColumns (cols : Option Str) : Except ResolveErr (List Str) :=
  match cols with
  | none => .ok defaultColumns
  | some s =>
    match s with
    | [] => .ok defaultColumns
    | ch :: rest =>
      if ch = '+' then procCols defaultColumns (splitOnComma rest)
      else if ch = '-' then procCols defaultColumns (splitOnComma s)
      else procCols [] (splitOnComma s)

/-- Python `txt[:n]`, including the negative-index convention
(`txt[:-k]` drops the last `k` characters). -/
def pySliceTo (txt : Str) (n : ℤ) : Str :=
  txt.take (if 0 ≤ n then n.toNat else ((txt.length : ℤ) + n).toNat)

/-- `cut(txt, length)` (db-dump.py lines 34-39): no-op for `None` or `0` or a
short enough string, otherwise the first `length - 3` characters (a Python
slice, so negative for `length < 3`) followed by `'...'`. -/
def cut (txt : Str) (length : Option ℤ) : Str :=
  match length with
  | none => txt
  | some l =>
    if l = 0 then txt
    else if (txt.length : ℤ) ≤ l then txt
    else pySliceTo txt (l - 3) ++ ['.', '.', '.']

/-- Little-endian decimal digits with structural fuel (`fuel >= n` makes it
total); kernel-reducible, unlike `Nat.digits`. -/
def natDigitsAux : ℕ → ℕ → List ℕ
  | 0, _ => []
  | fuel + 1, n => if n = 0 then [] else (n % 10) :: natDigitsAux fuel (n / 10)

/-- Decimal rendering of a natural number (Python `str(n)` for `n >= 0`). -/
def natStr (n : ℕ) : Str :=
  if n = 0 then ['0'] else ((natDigitsAux n n).reverse.map Nat.digitChar)

/-- Python `'%d' % i` for an int. -/
def intStr (i : ℤ) : Str :=
  (if i < 0 then ['-'] else []) ++ natStr i.natAbs

/-- Left-pad a digit string with `'0'` to three characters. -/
def pad3 (s : Str) : Str := List.replicate (3 - s.length) '0' ++ s

/-- Python `'%.3f' % q`: three digits after the decimal point. -/
def floatStr3 (q : ℚ) : Str :=
  let scaled : ℤ := round (q * 1000)
  (if scaled < 0 then ['-'] else []) ++
    natStr (scaled.natAbs / 1000) ++ '.' :: pad3 (natStr (scaled.natAbs % 1000))

/-- Python exception classes that a bound column accessor can raise into
`Formatter.format`; only `AttributeError` is caught there (line 179). -/
inductive PyExc
  | attrExc    -- AttributeError: rendered as an empty cell
  | typeExc    -- TypeError (e.g. `len(None)`)
  | indexExc   -- IndexError
  | valueExc   -- ValueError (e.g. `max` of an empty array)
  deriving DecidableEq, Repr

/-- Values a column accessor can return into the formatting loop
(db-dump.py lines 182-187 discriminate exactly int / float / other). -/
inductive CellVal
  | int (i : ℤ)
  | float (q : ℚ)
  | str (s : Str)
  deriving DecidableEq, Repr

/-- The per-cell try/except body of `Formatter.format` (lines 177-187):
an `AttributeError` becomes the empty string, any other exception
propagates; otherwise ints print via `'%d'`, floats via `'%.3f'`, and
anything else is used as-is with the column flagged for left alignment
(the returned `Bool`). -/
def renderCell (r : Except PyExc CellVal) : Except PyExc (Str × Bool) :=
  match r with
  | .error .attrExc => .ok ([], false)
  | .error e => .error e
  | .ok (.int i) => .ok (intStr i, false)
  | .ok (.float q) => .ok (floatStr3 q, false)
  | .ok (.str s) => .ok (s, true)

/-- Evaluate all column functions on one record (inner loop, lines 176-190). -/
def evalRow {ρ : Type} (funcs : List (ρ → Except PyExc CellVal)) (d : ρ) :
    Except PyExc (List (Str × Bool)) :=
  funcs.mapM (fun f => renderCell (f d))

/-- Evaluate the whole table (outer loop, lines 174-192). -/
def evalRows {ρ : Type} (funcs : List (ρ → Except PyExc CellVal)) (dcts : List ρ) :
    Except PyExc (List (List (Str × Bool))) :=
  dcts.mapM (evalRow funcs)

/-- The option values `Formatter.format` and `run` consult. -/
structure Opts where
  uniq : Bool
  wiki : Bool
  listCols : Bool
  count : Bool
  includeAll : Bool
  columns : Option Str
  sortCol : Option Str
  extract : Option Str
  deriving DecidableEq, Repr

/-- Running maximum cell length of column `i` (the
`if len(s) > widths[i]` updates of line 188-189, starting from 0). -/
def runningWidth (i : ℕ) (rows : List (List Str)) : ℕ :=
  rows.foldl (fun w r => max w (r.getD i []).length) 0

/-- Whether column `i` ever received a non-int non-float value
(the `signs[i] = -1` update of line 187). -/
def colFlag (i : ℕ) (rendered : List (List (Str × Bool))) : Bool :=
  rendered.any (fun r => (r.getD i ([], false)).2)

/-- `w and max(w, len(col))` of line 218: `0` stays `0`. -/
def finalWidth (w : ℕ) (col : Str) : ℕ :=
  if w = 0 then 0 else max w col.length

/-- Lexicographic `<=` on Python strings (code-point order). -/
def strLeb : Str → Str → Bool
  | [], _ => true
  | _ :: _, [] => false
  | a :: as, b :: bs => if a = b then strLeb as bs else decide (a < b)

/-- Exceptions escaping `Formatter.format`. -/
inductive FmtErr
  | sortMissing          -- `self.columns.index(self.sort)` ValueError
  | sortIndexOut         -- `row[n]` IndexError inside the sort key
  | uniqEmpty            -- `table.pop(0)` IndexError with no data rows
  | cellExc (e : PyExc)  -- uncaught accessor exception
  deriving DecidableEq, Repr

/-- Stable insertion of a row into an already processed prefix: the row goes
after every row whose key is `<=` its key.  `foldl` over this reproduces the
observable behavior of Python's stable `list.sort(key=...)`. -/
def insertSorted (le : List Str → List Str → Bool) (r : List Str) :
    List (List Str) → List (List Str)
  | [] => [r]
  | x :: xs => if le x r then x :: insertSorted le r xs else r :: x :: xs

/-- Stable sort by a boolean total preorder. -/
def stableSortBy (le : List Str → List Str → Bool) (rows : List (List Str)) :
    List (List Str) :=
  rows.foldl (fun acc r => insertSorted le r acc) []

/-- The sort step of `Formatter.format` (lines 194-198): look the sort column
up in `self.columns` (ValueError when absent), then stable-sort the data rows
by that cell.  When the index is out of range for the data rows the Python
key function raises IndexError (possible when sorting by the appended
`repeat` column); with no data rows no key is ever evaluated. -/
def sortRows (selfCols : List Str) (funcsLen : ℕ) (sortCol : Option Str)
    (rows : List (List Str)) : Except FmtErr (List (List Str)) :=
  match sortCol with
  | none => .ok rows
  | some sc =>
    match selfCols.findIdx? (· = sc) with
    | none => .error .sortMissing
    | some n =>
      if rows = [] then .ok []
      else if n < funcsLen then
        .ok (stableSortBy (fun a b => strLeb (a.getD n []) (b.getD n [])) rows)
      else .error .sortIndexOut

/-- The collapsing loop of the uniq step (lines 203-213): group equal
consecutive rows, keeping the first representative and a count. -/
def uniqGroups (firstRow : List Str) (count : ℕ) :
    List (List Str) → List (List Str × ℕ)
  | [] => [(firstRow, count)]
  | row :: rest =>
    if row = firstRow then uniqGroups firstRow (count + 1) rest
    else (firstRow, count) :: uniqGroups row 1 rest

/-- `widths[-1] = ...` : update the last entry of a list. -/
def updateLast (f : ℕ → ℕ) : List ℕ → List ℕ
  | [] => []
  | [w] => [f w]
  | w :: ws => w :: updateLast f ws

/-- The uniq step of `Formatter.format` (lines 200-216): pop the first data
row (IndexError when there is none), collapse runs, append the count as a
trailing cell and widen the trailing width to the longest count rendering. -/
def uniqStep (u : Bool) (rows : List (List Str)) (widths : List ℕ) :
    Except FmtErr (List (List Str) × List ℕ) :=
  if u then
    match rows with
    | [] => .error .uniqEmpty
    | r0 :: rest =>
      let groups := uniqGroups r0 1 rest
      .ok (groups.map (fun g => g.1 ++ [natStr g.2]),
           updateLast (fun w => groups.foldl (fun a g => max a (natStr g.2).length) w) widths)
  else .ok (rows, widths)

/-- Wiki-table header decoration (`'*%s*' % col`, line 168). -/
def starCols (b : Bool) (cols : List Str) : List Str :=
  if b then cols.map (fun c => '*' :: c ++ ['*']) else cols

/-- `'%*s' % (w * sign, s)`: right-justify for sign `1`, left-justify for
sign `-1`; never truncates. -/
def justify (w : ℕ) (sg : ℤ) (s : Str) : Str :=
  if sg = 1 then List.replicate (w - s.length) ' ' ++ s
  else s ++ List.replicate (w - s.length) ' '

/-- One output line (lines 225-229): drop zero-width columns, justify each
cell, join with `'|'`, and wrap in pipes in wiki mode. -/
def mkLine (wiki : Bool) (widths : List ℕ) (signs : List ℤ) (row : List Str) : Str :=
  let cells := ((widths.zip signs).zip row).filterMap
    (fun p => if p.1.1 > 0 then some (justify p.1.1 p.1.2 p.2) else none)
  let l := List.intercalate ['|'] cells
  if wiki then '|' :: l ++ ['|'] else l

/-- Everything `Formatter.format` computes: the header row, the final data
rows, the final widths and alignment signs, the text lines written to
stdout, and the returned `(ids, columns)` pair. -/
structure FmtSt where
  header : List Str
  dataRows : List (List Str)
  widthsFinal : List ℕ
  signs : List ℤ
  lines : List Str
  ids : List ℤ
  colsOut : List Str
  deriving DecidableEq, Repr

/-- Shallow embedding of `Formatter.format` (db-dump.py lines 162-232).
`selfCols` is `self.columns`, `funcs` the bound accessors (modelled as
functions into `Except PyExc CellVal`), `getId` reads `d.id`.  When `uniq`
is set the mutation `columns += ['repeat']` also extends `self.columns`, so
the sort-column lookup happens in the extended list.  The running widths and
signs arrays are expressed as per-column folds over the rendered rows, which
agree with the in-place updates of the Python loop. -/
def formatCore {ρ : Type} (selfCols : List Str) (funcs : List (ρ → Except PyExc CellVal))
    (sortCol : Option Str) (getId : ρ → ℤ) (opts : Opts) (dcts : List ρ) :
    Except FmtErr FmtSt :=
  let columns0 := if opts.uniq then selfCols ++ [chars "repeat"] else selfCols
  let columns := starCols opts.wiki columns0
  match evalRows funcs dcts with
  | .error e => .error (.cellExc e)
  | .ok rendered =>
    let rows := rendered.map (fun r => r.map Prod.fst)
    let widths0 := (List.range columns.length).map (fun i => runningWidth i rows)
    let signs := (List.range columns.length).map
      (fun i => if colFlag i rendered then (-1 : ℤ) else 1)
    let ids := dcts.map getId
    match sortRows columns0 funcs.length sortCol rows with
    | .error e => .error e
    | .ok sorted =>
      match uniqStep opts.uniq sorted widths0 with
      | .error e => .error e
      | .ok (dataRows, widths1) =>
        let widthsF := (widths1.zip columns).map (fun p => finalWidth p.1 p.2)
        let colsOut := (widthsF.zip columns).filterMap
          (fun p => if p.1 > 0 then some p.2 else none)
        let lines := if opts.listCols then []
          else (columns :: dataRows).map (mkLine opts.wiki widthsF signs)
        .ok ⟨columns, dataRows, widthsF, signs, lines, ids, colsOut⟩

/-- A force row / cell vector (one row of an `n x 3` or `3 x 3` array). -/
structure Vec3 where
  x : ℚ
  y : ℚ
  z : ℚ
  deriving DecidableEq, Repr

/-- Squared Euclidean norm of a row: one entry of `(f**2).sum(axis=1)`
(the elementwise square written as self-multiplication). -/
def rowSq (v : Vec3) : ℚ := v.x * v.x + v.y * v.y + v.z * v.z

/-- `d.forces[np.invert(mask)]`: keep the rows whose mask entry is `False`. -/
def maskSelect (mask : List Bool) (rows : List Vec3) : List Vec3 :=
  (mask.zip rows).filterMap (fun p => if p.1 then none else some p.2)

/-- One constraint dict, possibly carrying a boolean `mask` entry. -/
structure Constr where
  mask : Option (List Bool)
  deriving DecidableEq, Repr

/-- The slice of a database record that `Formatter.fmax` reads. -/
structure RecF where
  constraints : Option (List Constr)
  forces : List Vec3
  deriving DecidableEq, Repr

/-- Radicand computed by `Formatter.fmax` (db-dump.py lines 108-119): the
maximum over the selected force rows of the squared row norm.  When
`constraints` is `None` the guard assigns `f` but `len(c)` then raises
`TypeError`; `c[0]` on an empty list raises `IndexError`; both `f`
assignments of the `len(c) > 1` branch and of the `c is None` branch are
dead, because lines 114-118 always reassign `f` from the first constraint.
`max` of an empty selection raises `ValueError`. -/
def fmaxSq (d : RecF) : Except PyExc ℚ :=
  match d.constraints with
  | none => .error .typeExc
  | some [] => .error .indexExc
  | some (c :: _) =>
    let f : List Vec3 :=
      match c.mask with
      | some m => maskSelect m d.forces
      | none => d.forces
    match f with
    | [] => .error .valueExc
    | v :: vs => .ok (vs.foldl (fun a w => max a (rowSq w)) (rowSq v))

/-- `Formatter.fmax`: the square root (`** 0.5`) of the radicand. -/
noncomputable def fmax (d : RecF) : Except PyExc ℝ :=
  (fmaxSq d).map (fun q => Real.sqrt (q : ℝ))

/-- Value returned by `Formatter.size`: either the empty string or a real
number. -/
inductive SizeVal
  | str (s : Str)
  | real (x : ℝ)

/-- The slice of a database record that `Formatter.size` reads. -/
structure RecSize where
  pbc : Bool × Bool × Bool
  cell : Vec3 × Vec3 × Vec3

/-- `d.pbc.sum()`. -/
def countTrue (p : Bool × Bool × Bool) : ℕ :=
  (if p.1 then 1 else 0) + (if p.2.1 then 1 else 0) + (if p.2.2 then 1 else 0)

/-- `d.cell[d.pbc]`: the cell rows on periodic axes, in axis order. -/
def selectRows (p : Bool × Bool × Bool) (c : Vec3 × Vec3 × Vec3) : List Vec3 :=
  (if p.1 then [c.1] else []) ++ (if p.2.1 then [c.2.1] else []) ++
    (if p.2.2 then [c.2.2] else [])

/-- `np.cross` of two rows. -/
def crossV (a b : Vec3) : Vec3 :=
  ⟨a.y * b.z - a.z * b.y, a.z * b.x - a.x * b.z, a.x * b.y - a.y * b.x⟩

/-- Determinant of the `3 x 3` cell matrix. -/
def detC (c : Vec3 × Vec3 × Vec3) : ℚ :=
  c.1.x * (c.2.1.y * c.2.2.z - c.2.1.z * c.2.2.y)
    - c.1.y * (c.2.1.x * c.2.2.z - c.2.1.z * c.2.2.x)
    + c.1.z * (c.2.1.x * c.2.2.y - c.2.1.y * c.2.2.x)

/-- `Formatter.size` (db-dump.py lines 85-93): `''` for zero periodic axes,
norm of the single periodic row for one, norm of the cross product of the
two periodic rows for two, and `abs(det(cell))` for three. -/
noncomputable def sizeVal (d : RecSize) : SizeVal :=
  let dims := countTrue d.pbc
  if dims = 0 then .str []
  else if dims = 1 then
    .real (Real.sqrt ((rowSq ((selectRows d.pbc d.cell).headD ⟨0, 0, 0⟩) : ℚ) : ℝ))
  else if dims = 2 then
    .real (Real.sqrt ((rowSq (crossV ((selectRows d.pbc d.cell).headD ⟨0, 0, 0⟩)
      ((selectRows d.pbc d.cell).getD 1 ⟨0, 0, 0⟩)) : ℚ) : ℝ))
  else .real ((|detC d.cell| : ℚ) : ℝ)

/-- Observable side effects of `run` (db-dump.py lines 235-291), in program
order: count line, table lines written by `format`, `COLUMN` listing lines,
opening an extraction writer (with the record index when the filename
template contains `%`), the verbose `Writing config` message, and writing a
config to the current writer. -/
inductive Effect
  | printCount (n : ℕ)
  | tableLine (s : Str)
  | printColumn (pre : Bool) (c : Str)
  | openWriter (tmpl : Str) (idx : Option ℕ)
  | printWriting (i : ℕ)
  | writeConfig (i : ℕ)
  deriving DecidableEq, Repr

/-- Exceptions escaping `run`. -/
inductive RunErr
  | unboundLocal            -- `columns` read before assignment (line 274)
  | resolveFail (e : ResolveErr)
  | formatFail (e : FmtErr)
  deriving DecidableEq, Repr

/-- The key-collection loop of `run` (lines 262-267): all
`key_value_pairs` keys across the records, first occurrence order, no
duplicates. -/
def collectKeys {ρ : Type} (kvKeys : ρ → List Str) (dcts : List ρ) : List Str :=
  dcts.foldl (fun ks d =>
    (kvKeys d).foldl (fun ks k => if k ∈ ks then ks else ks ++ [k]) ks) []

/-- `','.join(['+' + key for key in keys])` (line 268). -/
def joinPlusKeys (keys : List Str) : Str :=
  List.intercalate [','] (keys.map (fun k => '+' :: k))

/-- The extraction block of `run` (lines 281-291): one writer for the whole
set when the template has no `%`, else a fresh writer per record; a verbose
message precedes each write. -/
def extractEffects {ρ : Type} (opts : Opts) (verbosity : ℤ) (dcts : List ρ) :
    List Effect :=
  match opts.extract with
  | none => []
  | some tmpl =>
    (if '%' ∈ tmpl then [] else [Effect.openWriter tmpl none]) ++
      (List.range dcts.length).flatMap (fun i =>
        (if '%' ∈ tmpl then [Effect.openWriter tmpl (some i)] else []) ++
          (if verbosity > 1 then [Effect.printWriting i] else []) ++
          [Effect.writeConfig i])

/-- Shallow embedding of `run` (db-dump.py lines 235-291) downstream of the
external `select` call: `rows` is the selected record list, `funcsOf`
abstracts the `getattr`-based accessor binding of `Formatter.__init__`,
`kvKeys` reads `d.key_value_pairs.keys()`.  The local variable `columns` is
modelled as an `Option` that is `none` until `format` has run; reading it
unassigned is the `UnboundLocalError` of line 274. -/
def runModel {ρ : Type} (funcsOf : List Str → List (ρ → Except PyExc CellVal))
    (getId : ρ → ℤ) (kvKeys : ρ → List Str) (opts : Opts) (verbosity : ℤ)
    (rows : List ρ) : Except RunErr (List Effect) :=
  if opts.count then .ok [.printCount rows.length]
  else
    let dcts := rows
    if dcts.length > 0 then
      let optsCols : Option Str :=
        if opts.includeAll || opts.listCols then
          some (joinPlusKeys (collectKeys kvKeys dcts))
        else opts.columns
      match resolveColumns optsCols with
      | .error e => .error (.resolveFail e)
      | .ok cols =>
        let funcs := funcsOf cols
        let fmtRes : Except RunErr (Option (List Effect × List Str)) :=
          if verbosity ≥ 1 then
            match formatCore cols funcs opts.sortCol getId opts dcts with
            | .error e => .error (.formatFail e)
            | .ok st => .ok (some (st.lines.map Effect.tableLine, st.colsOut))
          else .ok none
        match fmtRes with
        | .error e => .error e
        | .ok fmtOpt =>
          let fmtEffects := (fmtOpt.map Prod.fst).getD []
          let columnsVar : Option (List Str) := fmtOpt.map Prod.snd
          if verbosity > 1 || opts.listCols then
            match columnsVar with
            | none => .error .unboundLocal
            | some columns =>
              let colEff := columns.map (fun c => Effect.printColumn (!opts.listCols) c)
              if opts.listCols then .ok (fmtEffects ++ colEff)
              else .ok (fmtEffects ++ colEff ++ extractEffects opts verbosity dcts)
          else .ok (fmtEffects ++ extractEffects opts verbosity dcts)
    else .ok []

/-- Replicated-run expansion: the list of data rows a group list denotes
(used to state the uniq-collapsing claim). -/
def expandGroups (gs : List (List Str × ℕ)) : List (List Str) :=
  (gs.map (fun g => List.replicate g.2 g.1)).flatten

/-- View of an `Except` as a sum, for deciding equalities. -/
def exceptToSum {ε α : Type} : Except ε α → ε ⊕ α
  | .error e => .inl e
  | .ok a => .inr a

instance {ε α : Type} [DecidableEq ε] [DecidableEq α] : DecidableEq (Except ε α) :=
  fun a b =>
    decidable_of_iff (exceptToSum a = exceptToSum b)
      (by cases a <;> cases b <;> simp [exceptToSum])

/-! ## Helper lemmas -/

/-- A `foldl`-running maximum is attained (or is the seed) and bounds the
seed and every element. -/
theorem foldlMax_spec {α β : Type} [LinearOrder α] (g : β → α) (l : List β) (a : α) :
    (l.foldl (fun x y => max x (g y)) a = a
      ∨ ∃ b ∈ l, l.foldl (fun x y => max x (g y)) a = g b)
    ∧ a ≤ l.foldl (fun x y => max x (g y)) a
    ∧ ∀ b ∈ l, g b ≤ l.foldl (fun x y => max x (g y)) a := by
  induction l generalizing a with
  | nil => exact ⟨.inl rfl, le_refl _, by simp⟩
  | cons b l ih =>
    have ihb := ih (max a (g b))
    simp only [List.foldl_cons]
    refine ⟨?_, ?_, ?_⟩
    · rcases ihb.1 with h | ⟨b', hb', h⟩
      · rcases max_cases a (g b) with ⟨hm, _⟩ | ⟨hm, _⟩
        · exact .inl (by rw [h, hm])
        · exact .inr ⟨b, by simp, by rw [h, hm]⟩
      · exact .inr ⟨b', List.mem_cons_of_mem _ hb', h⟩
    · exact le_trans (le_max_left _ _) ihb.2.1
    · intro b' hb'
      rcases List.mem_cons.mp hb' with rfl | hb'
      · exact le_trans (le_max_right _ _) ihb.2.1
      · exact ihb.2.2 b' hb'

/-- The token loop splits over list append (the Python loop visits tokens in
order and aborts on the first exception). -/
theorem procCols_append (l1 l2 : List Str) (acc : List Str) :
    procCols acc (l1 ++ l2) =
      match procCols acc l1 with
      | .error e => .error e
      | .ok a => procCols a l2 := by
  induction l1 generalizing acc with
  | nil => simp [procCols]
  | cons c cs ih =>
    simp only [List.cons_append, procCols]
    cases procToken acc c with
    | error e => rfl
    | ok acc2 => exact ih acc2

/-- Tokens that are nonempty and not `-`-prefixed are appended in order,
stripped of leading `+` characters. -/
theorem procCols_appends (ts : List Str) (acc : List Str)
    (h : ∀ t ∈ ts, t ≠ [] ∧ t.head? ≠ some '-') :
    procCols acc ts = .ok (acc ++ ts.map (List.dropWhile (· = '+'))) := by
  induction ts generalizing acc with
  | nil => simp [procCols]
  | cons t ts ih =>
    obtain ⟨hne, hhd⟩ := h t (List.mem_cons_self t ts)
    cases t with
    | nil => exact absurd rfl hne
    | cons c cs =>
      have hc : c ≠ '-' := by
        intro hc; exact hhd (by rw [hc]; rfl)
      simp only [procCols, procToken, if_neg hc]
      rw [ih _ (fun t ht => h t (List.mem_cons_of_mem _ ht))]
      simp [List.append_assoc]

/-- A successful `list.remove` yields an order-preserving sublist. -/
theorem removeFirst_sublist (xs : List Str) (y : Str) (l : List Str)
    (h : removeFirst xs y = .ok l) : l.Sublist xs := by
  induction xs generalizing l with
  | nil => exact absurd h (by simp [removeFirst])
  | cons x xs ih =>
    by_cases hxy : x = y
    · simp only [removeFirst, if_pos hxy] at h
      cases h
      exact (List.sublist_cons_self x xs)
    · simp only [removeFirst, if_neg hxy] at h
      cases hr : removeFirst xs y with
      | error e => rw [hr] at h; exact absurd h (by simp [Except.map])
      | ok l' =>
        rw [hr] at h
        simp only [Except.map] at h
        cases h
        exact (ih l' hr).cons₂ x

/-- `list.remove` of an absent name raises `ValueError`. -/
theorem removeFirst_absent (xs : List Str) (y : Str) (h : y ∉ xs) :
    removeFirst xs y = .error .valueErr := by
  induction xs with
  | nil => rfl
  | cons x xs ih =>
    have hxy : x ≠ y := fun hh => h (by rw [hh]; exact List.mem_cons_self y xs)
    simp only [removeFirst, if_neg hxy]
    rw [ih (fun hy => h (List.mem_cons_of_mem _ hy))]
    rfl

/-- A run of only `-`-prefixed tokens can only shrink the list,
order-preserving. -/
theorem procCols_removals (ts : List Str) (acc l : List Str)
    (h : ∀ t ∈ ts, t.head? = some '-') (hok : procCols acc ts = .ok l) :
    l.Sublist acc := by
  induction ts generalizing acc with
  | nil => simp only [procCols] at hok; cases hok; exact List.Sublist.refl l
  | cons t ts ih =>
    have hhd := h t (List.mem_cons_self t ts)
    cases t with
    | nil => exact absurd hhd (by simp)
    | cons c cs =>
      have hc : c = '-' := by simpa using hhd
      simp only [procCols, procToken, if_pos hc] at hok
      cases hr : removeFirst acc cs with
      | error e => rw [hr] at hok; exact absurd hok (by simp)
      | ok acc2 =>
        rw [hr] at hok
        exact (ih acc2 (fun t ht => h t (List.mem_cons_of_mem _ ht)) hok).trans
          (removeFirst_sublist acc cs acc2 hr)

/-! ## C3: the `cut` truncation helper -/

/-- Claim C3 (counterexample): for `N = 1` and the five-character input
`'hello'`, `cut` returns `'hel...'` — six characters, not the first
`N - 3` characters followed by `'...'` of total length `N`; the Python
slice `txt[:-2]` keeps all but the last two characters. -/
theorem C3_cut_cex :
    cut (chars "hello") (some 1) = chars "hel..."
    ∧ (cut (chars "hello") (some 1)).length = 6
    ∧ (cut (chars "hello") (some 1)).length ≠ 1 := by
  refine ⟨by decide, by decide, by decide⟩

/-- Claim C3 (amended): for truncation length `N ≥ 3`, a string longer than
`N` is cut to its first `N - 3` characters plus `'...'`, of length exactly
`N`; a string of length at most `N` (for any `N > 0`) and every string for
`N = 0` are returned unchanged.  (For `N = 1, 2` the slice bound `N - 3` is
negative and Python slicing counts from the end, so the claimed shape and
length fail; see the counterexample.) -/
theorem C3_cut (txt : Str) (N : ℤ) :
    (3 ≤ N → (N : ℤ) < txt.length →
      cut txt (some N) = txt.take (N - 3).toNat ++ chars "..."
      ∧ (cut txt (some N)).length = N.toNat)
    ∧ (0 < N → (txt.length : ℤ) ≤ N → cut txt (some N) = txt)
    ∧ cut txt (some 0) = txt := by
  refine ⟨?_, ?_, ?_⟩
  · intro h3 hlen
    have hN0 : N ≠ 0 := by omega
    have hnle : ¬ ((txt.length : ℤ) ≤ N) := by omega
    have hpos : 0 ≤ N - 3 := by omega
    have hcut : cut txt (some N) = txt.take (N - 3).toNat ++ chars "..." := by
      simp only [cut, if_neg hN0, if_neg hnle, pySliceTo, if_pos hpos]
      rfl
    refine ⟨hcut, ?_⟩
    rw [hcut]
    have htake : (txt.take (N - 3).toNat).length = (N - 3).toNat := by
      rw [List.length_take]
      omega
    simp only [List.length_append, htake]
    have : (chars "...").length = 3 := by decide
    omega
  · intro hN0 hle
    have : N ≠ 0 := by omega
    simp [cut, this, hle]
  · simp [cut]

/-- Witness for C3: the amended statement applied at `'hello world'`,
`N = 7`. -/
theorem C3_cut_wit :
    (3 : ℤ) ≤ 7 ∧ ((7 : ℤ) < (chars "hello world").length)
    ∧ (cut (chars "hello world") (some 7)).length = (7 : ℤ).toNat :=
  ⟨by decide, by decide, ((C3_cut (chars "hello world") 7).1 (by decide) (by decide)).2⟩

/-! ## C8: `-name` removal failure in pure-replacement mode -/

/-- Claim C8: with a column spec that has no leading sign (pure replacement
from the empty list), a `-name` token whose name is not in the in-progress
list makes resolution fail with the `ValueError` of `list.remove` — the
exception propagates out of `Formatter.__init__`. -/
theorem C8_remove_absent (s : Str) (ts1 ts2 : List Str) (t name : Str)
    (acc : List Str) (hs : s ≠ [])
    (hplus : s.head? ≠ some '+') (hminus : s.head? ≠ some '-')
    (hsplit : splitOnComma s = ts1 ++ t :: ts2)
    (hth : t.head? = some '-') (htl : t.tail = name)
    (hacc : procCols [] ts1 = .ok acc) (habs : name ∉ acc) :
    resolveColumns (some s) = .error .valueErr := by
  cases s with
  | nil => exact absurd rfl hs
  | cons ch rest =>
    have hchp : ch ≠ '+' := by intro h; exact hplus (by rw [h]; rfl)
    have hchm : ch ≠ '-' := by intro h; exact hminus (by rw [h]; rfl)
    have hres : resolveColumns (some (ch :: rest)) = procCols [] (splitOnComma (ch :: rest)) := by
      simp [resolveColumns, if_neg hchp, if_neg hchm]
    rw [hres, hsplit, procCols_append, hacc]
    cases t with
    | nil => exact absurd hth (by simp)
    | cons c cs =>
      have hc : c = '-' := by simpa using hth
      have hcs : cs = name := by simpa using htl
      simp only [procCols, procToken, if_pos hc, hcs,
        removeFirst_absent acc name habs]

/-- Witness for C8: spec `'id,-foo'` (no leading sign) appends `id` and then
fails removing the absent `foo`. -/
theorem C8_remove_absent_wit :
    resolveColumns (some (chars "id,-foo")) = .error .valueErr :=
  C8_remove_absent (chars "id,-foo") [chars "id"] [] (chars "-foo") (chars "foo")
    [chars "id"] (by decide) (by decide) (by decide) (by decide) (by decide)
    (by decide) (by decide) (by decide)

/-! ## C2: `+`/`-` column-spec resolution -/

/-- Claim C2 (counterexample): the spec `'+x,-id'` has a leading `+` but its
result omits the default column `id` — not a superset of the default list —
because tokens after a leading `+` may themselves be `-`-prefixed removals;
dually, `'-fmax,x'` has a leading `-` but its result contains the appended
non-default column `x`, so it is not the default list minus named entries. -/
theorem C2_columns_cex :
    resolveColumns (some (chars "+x,-id")) =
      .ok [chars "age", chars "user", chars "formula", chars "calc",
           chars "energy", chars "fmax", chars "pbc", chars "size",
           chars "keywords", chars "charge", chars "mass", chars "fixed",
           chars "smax", chars "magmom", chars "cell", chars "x"]
    ∧ chars "id" ∈ defaultColumns
    ∧ chars "id" ∉ [chars "age", chars "user", chars "formula", chars "calc",
           chars "energy", chars "fmax", chars "pbc", chars "size",
           chars "keywords", chars "charge", chars "mass", chars "fixed",
           chars "smax", chars "magmom", chars "cell", chars "x"]
    ∧ resolveColumns (some (chars "-fmax,x")) =
      .ok [chars "id", chars "age", chars "user", chars "formula",
           chars "calc", chars "energy", chars "pbc", chars "size",
           chars "keywords", chars "charge", chars "mass", chars "fixed",
           chars "smax", chars "magmom", chars "cell", chars "x"]
    ∧ chars "x" ∉ defaultColumns := by
  refine ⟨by decide, by decide, by decide, by decide, by decide⟩

/-- Claim C2 (amended): a `+`-spec all of whose comma-separated tokens are
nonempty and not `-`-prefixed resolves to the default list followed by the
tokens (stripped of leading `+` characters) in order — in particular the
default list is an order-preserving sublist of the result; a `-`-spec all of
whose tokens are `-`-prefixed resolves, when it succeeds, to an
order-preserving sublist of the default list (the named columns removed).
Tokens of the opposite shape instead remove (after `+`) or append
(after `-`), as the counterexample shows. -/
theorem C2_columns :
    (∀ rest : Str, (∀ t ∈ splitOnComma rest, t ≠ [] ∧ t.head? ≠ some '-') →
      resolveColumns (some ('+' :: rest)) =
        .ok (defaultColumns ++ (splitOnComma rest).map (List.dropWhile (· = '+')))
      ∧ defaultColumns.Sublist
          (defaultColumns ++ (splitOnComma rest).map (List.dropWhile (· = '+'))))
    ∧ (∀ (rest : Str) (L : List Str),
      (∀ t ∈ splitOnComma ('-' :: rest), t.head? = some '-') →
      resolveColumns (some ('-' :: rest)) = .ok L → L.Sublist defaultColumns) := by
  constructor
  · intro rest h
    have hres : resolveColumns (some ('+' :: rest)) =
        procCols defaultColumns (splitOnComma rest) := by
      simp [resolveColumns]
    rw [hres, procCols_appends _ _ h]
    exact ⟨rfl, List.sublist_append_left _ _⟩
  · intro rest L h hok
    have hres : resolveColumns (some ('-' :: rest)) =
        procCols defaultColumns (splitOnComma ('-' :: rest)) := by
      simp [resolveColumns]
    rw [hres] at hok
    exact procCols_removals _ _ _ h hok

/-- Witness for C2: the amended statement applied at the specs `'+x'` and
`'-fmax'`. -/
theorem C2_columns_wit :
    resolveColumns (some ('+' :: chars "x")) =
      .ok (defaultColumns ++ (splitOnComma (chars "x")).map (List.dropWhile (· = '+')))
    ∧ [chars "id", chars "age", chars "user", chars "formula", chars "calc",
       chars "energy", chars "pbc", chars "size", chars "keywords",
       chars "charge", chars "mass", chars "fixed", chars "smax",
       chars "magmom", chars "cell"].Sublist defaultColumns :=
  ⟨(C2_columns.1 (chars "x") (by decide)).1,
   C2_columns.2 (chars "fmax") _ (by decide) (by decide)⟩

/-! ## C1: the `fmax` accessor -/

/-- The folded maximum of squared row norms is attained and dominates. -/
theorem foldlMax_rowSq (v0 : Vec3) (vs : List Vec3) :
    ∃ v ∈ v0 :: vs,
      vs.foldl (fun a w => max a (rowSq w)) (rowSq v0) = rowSq v
      ∧ ∀ u ∈ v0 :: vs,
          rowSq u ≤ vs.foldl (fun a w => max a (rowSq w)) (rowSq v0) := by
  have h := foldlMax_spec rowSq vs (rowSq v0)
  have hb : ∀ u ∈ v0 :: vs,
      rowSq u ≤ vs.foldl (fun a w => max a (rowSq w)) (rowSq v0) := by
    intro u hu
    rcases List.mem_cons.mp hu with rfl | hu
    · exact h.2.1
    · exact h.2.2 u hu
  rcases h.1 with he | ⟨b, hbm, he⟩
  · exact ⟨v0, List.mem_cons_self _ _, he, hb⟩
  · exact ⟨b, List.mem_cons_of_mem _ hbm, he, hb⟩

/-- Claim C1 (counterexample): a record with TWO constraints whose first
constraint masks the second atom.  The code reassigns `f` from the first
constraint's mask (lines 114-118) even though `len(c) > 1`, so `fmax`
returns `sqrt 9` (from the unmasked atom with force `(3,0,0)`), not the
unmasked maximum `sqrt 16` the claim predicts. -/
theorem C1_fmax_cex :
    fmax ⟨some [⟨some [false, true]⟩, ⟨none⟩], [⟨3, 0, 0⟩, ⟨4, 0, 0⟩]⟩
      = .ok (Real.sqrt ((9 : ℚ) : ℝ))
    ∧ fmax ⟨some [⟨some [false, true]⟩, ⟨none⟩], [⟨3, 0, 0⟩, ⟨4, 0, 0⟩]⟩
      ≠ .ok (Real.sqrt ((16 : ℚ) : ℝ))
    ∧ ([⟨some [false, true]⟩, ⟨none⟩] : List Constr).length > 1 := by
  have hsq : fmaxSq ⟨some [⟨some [false, true]⟩, ⟨none⟩], [⟨3, 0, 0⟩, ⟨4, 0, 0⟩]⟩
      = .ok (9 : ℚ) := by
    simp only [fmaxSq, maskSelect, List.zip_cons_cons, List.zip_nil_right,
      List.filterMap, rowSq]
    norm_num
  have hok : fmax ⟨some [⟨some [false, true]⟩, ⟨none⟩], [⟨3, 0, 0⟩, ⟨4, 0, 0⟩]⟩
      = .ok (Real.sqrt ((9 : ℚ) : ℝ)) := by
    simp [fmax, hsq, Except.map]
  refine ⟨hok, ?_, by decide⟩
  rw [hok]
  intro h
  have hs : Real.sqrt ((9 : ℚ) : ℝ) = Real.sqrt ((16 : ℚ) : ℝ) := by
    simp only [Except.ok.injEq] at h
    exact h
  have h9 : ((9 : ℚ) : ℝ) = (9 : ℝ) := by norm_num
  have h16 : ((16 : ℚ) : ℝ) = (16 : ℝ) := by norm_num
  rw [h9, h16] at hs
  have := (Real.sqrt_inj (by norm_num) (by norm_num)).mp hs
  norm_num at this

/-- Claim C1 (amended): whenever the record has at least one constraint, the
FIRST constraint alone decides the selection — its boolean mask, when
present, restricts the maximum to atoms whose mask entry is false, and
otherwise the unmasked forces are used — irrespective of how many further
constraints exist (the `len(c) > 1` branch's assignment is dead).  For
`constraints = None`, `len(None)` raises a `TypeError`, which `format` does
not catch (it only catches `AttributeError`), so the error propagates
instead of rendering an empty cell. -/
theorem C1_fmax :
    (∀ (d : RecF) (c : Constr) (rest : List Constr) (m : List Bool),
      d.constraints = some (c :: rest) → c.mask = some m →
      maskSelect m d.forces ≠ [] →
      ∃ v ∈ maskSelect m d.forces,
        fmax d = .ok (Real.sqrt ((rowSq v : ℚ) : ℝ))
        ∧ ∀ u ∈ maskSelect m d.forces, rowSq u ≤ rowSq v)
    ∧ (∀ (d : RecF) (c : Constr) (rest : List Constr),
      d.constraints = some (c :: rest) → c.mask = none → d.forces ≠ [] →
      ∃ v ∈ d.forces,
        fmax d = .ok (Real.sqrt ((rowSq v : ℚ) : ℝ))
        ∧ ∀ u ∈ d.forces, rowSq u ≤ rowSq v)
    ∧ (∀ d : RecF, d.constraints = none →
      fmax d = .error .typeExc
      ∧ renderCell (.error .typeExc) = .error .typeExc) := by
  refine ⟨?_, ?_, ?_⟩
  · intro d c rest m hc hm hne
    cases hsel : maskSelect m d.forces with
    | nil => exact absurd hsel hne
    | cons v0 vs =>
      have hsq : fmaxSq d = .ok (vs.foldl (fun a w => max a (rowSq w)) (rowSq v0)) := by
        simp [fmaxSq, hc, hm, hsel]
      obtain ⟨v, hv, he, hub⟩ := foldlMax_rowSq v0 vs
      refine ⟨v, hsel ▸ hv, ?_, ?_⟩
      · simp [fmax, hsq, Except.map, he]
      · intro u hu
        exact he ▸ hub u (hsel ▸ hu)
  · intro d c rest hc hm hne
    cases hsel : d.forces with
    | nil => exact absurd hsel hne
    | cons v0 vs =>
      have hsq : fmaxSq d = .ok (vs.foldl (fun a w => max a (rowSq w)) (rowSq v0)) := by
        simp [fmaxSq, hc, hm, hsel]
      obtain ⟨v, hv, he, hub⟩ := foldlMax_rowSq v0 vs
      refine ⟨v, hsel ▸ hv, ?_, ?_⟩
      · simp [fmax, hsq, Except.map, he]
      · intro u hu
        exact he ▸ hub u (hsel ▸ hu)
  · intro d hd
    exact ⟨by simp [fmax, fmaxSq, hd, Except.map], rfl⟩

/-- Witness for C1: the amended first clause applied to the two-constraint
record of the counterexample (first constraint masks the second atom). -/
theorem C1_fmax_wit :
    ∃ v ∈ maskSelect [false, true] [⟨3, 0, 0⟩, ⟨4, 0, 0⟩],
      fmax ⟨some [⟨some [false, true]⟩, ⟨none⟩], [⟨3, 0, 0⟩, ⟨4, 0, 0⟩]⟩
        = .ok (Real.sqrt ((rowSq v : ℚ) : ℝ))
      ∧ ∀ u ∈ maskSelect [false, true] [⟨3, 0, 0⟩, ⟨4, 0, 0⟩], rowSq u ≤ rowSq v :=
  C1_fmax.1 ⟨some [⟨some [false, true]⟩, ⟨none⟩], [⟨3, 0, 0⟩, ⟨4, 0, 0⟩]⟩
    ⟨some [false, true]⟩ [⟨none⟩] [false, true] rfl rfl (by decide)

/-! ## C7: the `size` accessor -/

/-- Claim C7 (counterexample): for a fully non-periodic record, `size`
returns the empty string `''`, not the number `0`. -/
theorem C7_size_cex :
    sizeVal ⟨(false, false, false), (⟨1, 0, 0⟩, ⟨0, 1, 0⟩, ⟨0, 0, 1⟩)⟩ = .str []
    ∧ sizeVal ⟨(false, false, false), (⟨1, 0, 0⟩, ⟨0, 1, 0⟩, ⟨0, 0, 1⟩)⟩ ≠ .real 0 := by
  refine ⟨rfl, ?_⟩
  intro h
  rw [show sizeVal ⟨(false, false, false), (⟨1, 0, 0⟩, ⟨0, 1, 0⟩, ⟨0, 0, 1⟩)⟩
      = .str [] from rfl] at h
  exact SizeVal.noConfusion h

/-- Claim C7 (amended): `size` returns the EMPTY STRING (not 0) when no axis
is periodic; the Euclidean norm of the single periodic cell row when exactly
one axis is periodic; the norm of the cross product of the two periodic cell
rows (in axis order) when exactly two are; and `abs(det(cell))` when all
three are. -/
theorem C7_size (cv : Vec3 × Vec3 × Vec3) :
    sizeVal ⟨(false, false, false), cv⟩ = .str []
    ∧ sizeVal ⟨(true, false, false), cv⟩ = .real (Real.sqrt ((rowSq cv.1 : ℚ) : ℝ))
    ∧ sizeVal ⟨(false, true, false), cv⟩ = .real (Real.sqrt ((rowSq cv.2.1 : ℚ) : ℝ))
    ∧ sizeVal ⟨(false, false, true), cv⟩ = .real (Real.sqrt ((rowSq cv.2.2 : ℚ) : ℝ))
    ∧ sizeVal ⟨(true, true, false), cv⟩
        = .real (Real.sqrt ((rowSq (crossV cv.1 cv.2.1) : ℚ) : ℝ))
    ∧ sizeVal ⟨(true, false, true), cv⟩
        = .real (Real.sqrt ((rowSq (crossV cv.1 cv.2.2) : ℚ) : ℝ))
    ∧ sizeVal ⟨(false, true, true), cv⟩
        = .real (Real.sqrt ((rowSq (crossV cv.2.1 cv.2.2) : ℚ) : ℝ))
    ∧ sizeVal ⟨(true, true, true), cv⟩ = .real ((|detC cv| : ℚ) : ℝ) :=
  ⟨rfl, rfl, rfl, rfl, rfl, rfl, rfl, rfl⟩

/-! ## Index bookkeeping helpers -/

/-- `getD` through a mapped zip, given both indices are in range. -/
theorem getD_map_zip {α β γ : Type} (f : α → β → γ) (l1 : List α) (l2 : List β)
    (i : ℕ) (d : γ) (d1 : α) (d2 : β) (h1 : i < l1.length) (h2 : i < l2.length) :
    ((l1.zip l2).map (fun p => f p.1 p.2)).getD i d = f (l1.getD i d1) (l2.getD i d2) := by
  have hz : i < (l1.zip l2).length := by
    rw [List.length_zip]; omega
  have hm : i < ((l1.zip l2).map (fun p => f p.1 p.2)).length := by
    simpa using hz
  rw [List.getD_eq_getElem _ _ hm, List.getElem_map, List.getElem_zip,
    List.getD_eq_getElem _ _ h1, List.getD_eq_getElem _ _ h2]

/-- `getD` through a map over `List.range`. -/
theorem getD_map_range {γ : Type} (g : ℕ → γ) (n i : ℕ) (d : γ) (h : i < n) :
    ((List.range n).map g).getD i d = g i := by
  have hm : i < ((List.range n).map g).length := by simpa using h
  rw [List.getD_eq_getElem _ _ hm, List.getElem_map, List.getElem_range]

/-- The running column maximum is zero exactly when every cell of the
column is empty. -/
theorem runningWidth_eq_zero (i : ℕ) (rows : List (List Str)) :
    runningWidth i rows = 0 ↔ ∀ r ∈ rows, (r.getD i []).length = 0 := by
  unfold runningWidth
  have h := foldlMax_spec (fun r : List Str => (r.getD i []).length) rows 0
  constructor
  · intro h0 r hr
    have hb := h.2.2 r hr
    have hb' : (r.getD i []).length ≤ 0 := le_trans hb (le_of_eq h0)
    omega
  · intro hall
    rcases h.1 with he | ⟨b, hb, he⟩
    · exact he
    · rw [he]; exact hall b hb

/-- Success-shape of `Formatter.format` on the plain path (no uniq, no wiki,
no sort): the data rows are the rendered cells, widths are the
`w and max(w, len(col))` of the per-column running maxima, signs record
which columns saw a textual value. -/
theorem formatCore_simple_ok {ρ : Type} (selfCols : List Str)
    (funcs : List (ρ → Except PyExc CellVal)) (getId : ρ → ℤ) (opts : Opts)
    (dcts : List ρ) (st : FmtSt) (rendered : List (List (Str × Bool)))
    (hu : opts.uniq = false) (hw : opts.wiki = false)
    (hev : evalRows funcs dcts = .ok rendered)
    (hok : formatCore selfCols funcs none getId opts dcts = .ok st) :
    st.dataRows = rendered.map (fun r => r.map Prod.fst)
    ∧ st.widthsFinal = (((List.range selfCols.length).map
        (fun i => runningWidth i (rendered.map (fun r => r.map Prod.fst)))).zip selfCols).map
        (fun p => finalWidth p.1 p.2)
    ∧ st.signs = (List.range selfCols.length).map
        (fun i => if colFlag i rendered then (-1 : ℤ) else 1)
    ∧ st.header = selfCols := by
  unfold formatCore at hok
  rw [hev] at hok
  simp only [hu, hw, Bool.false_eq_true, if_false, starCols, sortRows, uniqStep] at hok
  simp only [Except.ok.injEq] at hok
  subst hok
  exact ⟨rfl, rfl, rfl, rfl⟩

/-! ## C4: final column widths -/

/-- Claim C4 (counterexample): a table with ONE data row whose single cell
raises `AttributeError` (rendered `''`).  The running width is 0, so
`w and max(w, len(col))` keeps the final width 0 — not
`max(0, len('energy')) = 6` — and the column is dropped from the output even
though the table has a data row. -/
theorem C4_widths_cex :
    formatCore [chars "energy"] [fun _ : Unit => .error .attrExc] none (fun _ => 7)
      ⟨false, false, false, false, false, none, none, none⟩ [()]
      = .ok ⟨[chars "energy"], [[[]]], [0], [1], [[], []], [7], []⟩
    ∧ max (runningWidth 0 [[([] : Str)]]) (chars "energy").length = 6
    ∧ (0 : ℕ) ≠ 6
    ∧ ([[([] : Str)]] : List (List Str)).length ≠ 0 := by
  refine ⟨by decide, by decide, by decide, by decide⟩

/-- Claim C4 (amended): on the plain path, the final width of column `i` is
`max(running maximum, header length)` ONLY when the running maximum is
positive; when the running maximum is 0 the final width stays 0 regardless
of the header length (Python's `w and max(w, len(col))`).  A final width of
0 occurs exactly when every cell of the column rendered as the empty string
— which happens with no data rows, but also with data rows whose accessors
all failed with `AttributeError`. -/
theorem C4_widths {ρ : Type} (selfCols : List Str)
    (funcs : List (ρ → Except PyExc CellVal)) (getId : ρ → ℤ) (opts : Opts)
    (dcts : List ρ) (st : FmtSt) (i : ℕ)
    (hu : opts.uniq = false) (hw : opts.wiki = false)
    (hok : formatCore selfCols funcs none getId opts dcts = .ok st)
    (hi : i < selfCols.length) :
    (st.widthsFinal.getD i 0
      = if runningWidth i st.dataRows = 0 then 0
        else max (runningWidth i st.dataRows) (selfCols.getD i []).length)
    ∧ (st.widthsFinal.getD i 0 = 0 ↔ ∀ r ∈ st.dataRows, (r.getD i []).length = 0) := by
  cases hev : evalRows funcs dcts with
  | error e =>
    exfalso
    unfold formatCore at hok
    rw [hev] at hok
    exact Except.noConfusion hok
  | ok rendered =>
    obtain ⟨hrows, hwidths, _, _⟩ :=
      formatCore_simple_ok selfCols funcs getId opts dcts st rendered hu hw hev hok
    have hlen : i < ((List.range selfCols.length).map
        (fun j => runningWidth j (rendered.map (fun r => r.map Prod.fst)))).length := by
      simpa using hi
    have hgd : st.widthsFinal.getD i 0
        = finalWidth (runningWidth i st.dataRows) (selfCols.getD i []) := by
      rw [hwidths, getD_map_zip (fun w c => finalWidth w c) _ _ i 0 0 [] hlen hi,
        getD_map_range _ _ _ _ hi, hrows]
    rw [hgd]
    constructor
    · unfold finalWidth
      by_cases h0 : runningWidth i st.dataRows = 0 <;> simp [h0]
    · unfold finalWidth
      by_cases h0 : runningWidth i st.dataRows = 0
      · simp only [h0, if_pos rfl]
        exact ⟨fun _ => (runningWidth_eq_zero i st.dataRows).mp h0,
          fun _ => rfl⟩
      · simp only [if_neg h0]
        constructor
        · intro hmax
          have hz : runningWidth i st.dataRows = 0 := by omega
          exact absurd hz h0
        · intro hall
          exact absurd ((runningWidth_eq_zero i st.dataRows).mpr hall) h0

/-- Witness for C4: the amended statement applied to a one-row, one-column
table with cell `'ab'` and header `'c'`. -/
theorem C4_widths_wit :
    ((2 : ℕ) = if runningWidth 0 [[chars "ab"]] = 0 then 0
      else max (runningWidth 0 [[chars "ab"]]) (([chars "c"] : List Str).getD 0 []).length)
    ∧ ((2 : ℕ) = 0 ↔ ∀ r ∈ [[chars "ab"]], (r.getD 0 []).length = 0) :=
  C4_widths [chars "c"] [fun _ : Unit => .ok (.str (chars "ab"))] (fun _ => 5)
    ⟨false, false, false, false, false, none, none, none⟩ [()]
    ⟨[chars "c"], [[chars "ab"]], [2], [-1], [chars "c ", chars "ab"], [5], [chars "c"]⟩
    0 rfl rfl (by decide) (by decide)

/-! ## C5: cell rendering and alignment -/

/-- Decimal digit characters are never the decimal point. -/
theorem digitChar_ne_dot (d : ℕ) (hd : d < 10) : Nat.digitChar d ≠ '.' := by
  interval_cases d <;> decide

/-- The fueled digit list agrees with `Nat.digits 10` once the fuel covers
the number. -/
theorem natDigitsAux_eq (fuel n : ℕ) (h : n ≤ fuel) :
    natDigitsAux fuel n = Nat.digits 10 n := by
  induction fuel generalizing n with
  | zero =>
    have hn : n = 0 := by omega
    subst hn
    simp [natDigitsAux]
  | succ fuel ih =>
    by_cases hn : n = 0
    · subst hn
      simp [natDigitsAux]
    · have hstep : natDigitsAux (fuel + 1) n = (n % 10) :: natDigitsAux fuel (n / 10) := by
        simp [natDigitsAux, hn]
      have hdiv : n / 10 ≤ fuel := by
        have := Nat.div_lt_self (Nat.pos_of_ne_zero hn) (by norm_num : 1 < 10)
        omega
      rw [hstep, ih (n / 10) hdiv,
        Nat.digits_def' (by norm_num : 1 < 10) (Nat.pos_of_ne_zero hn)]

/-- `natStr` in terms of the library's `Nat.digits`. -/
theorem natStr_eq (n : ℕ) :
    natStr n = if n = 0 then ['0']
      else ((Nat.digits 10 n).reverse.map Nat.digitChar) := by
  unfold natStr
  rw [natDigitsAux_eq n n (le_refl n)]

/-- A rendered natural number contains no decimal point. -/
theorem natStr_ne_dot (n : ℕ) : '.' ∉ natStr n := by
  rw [natStr_eq]
  split
  · decide
  · intro hmem
    simp only [List.mem_map, List.mem_reverse] at hmem
    obtain ⟨d, hd, he⟩ := hmem
    exact digitChar_ne_dot d (Nat.digits_lt_base (by norm_num) hd) he

/-- A rendered int contains no decimal point. -/
theorem intStr_ne_dot (i : ℤ) : '.' ∉ intStr i := by
  unfold intStr
  intro hmem
  rcases List.mem_append.mp hmem with h | h
  · split at h
    · simp at h
    · simp at h
  · exact natStr_ne_dot _ h

/-- Naturals below 1000 render in at most three digits. -/
theorem natStr_length_le3 (n : ℕ) (h : n < 1000) : (natStr n).length ≤ 3 := by
  rw [natStr_eq]
  split
  · simp
  · rename_i hn
    rw [List.length_map, List.length_reverse,
      Nat.digits_len 10 n (by norm_num) hn]
    have hlog : Nat.log 10 n < 3 := Nat.log_lt_of_lt_pow hn (by omega)
    omega

/-- A row whose accessors all raise `AttributeError` still renders in full:
one empty cell per column, and evaluation succeeds. -/
theorem evalRow_attrOk {ρ : Type} (fs : List (ρ → Except PyExc CellVal)) (d : ρ)
    (h : ∀ f ∈ fs, f d = .error .attrExc) :
    evalRow fs d = .ok (fs.map (fun _ => ([], false))) := by
  induction fs with
  | nil => rfl
  | cons f fs ih =>
    have hf := h f (List.mem_cons_self f fs)
    have hrest := ih (fun g hg => h g (List.mem_cons_of_mem _ hg))
    simp only [evalRow] at hrest ⊢
    rw [List.mapM_cons, hf, hrest]
    rfl

/-- Claim C5: an `AttributeError` from a bound accessor renders as the empty
string and the row (hence the table) is still produced in full; an int
renders with no decimals, a float with exactly three digits after the sole
decimal point, any other value is used as-is and flips the column's
alignment sign to left; on the plain path the emitted sign of a column is
`-1` (left-justify) exactly when some row produced a textual value, and `1`
(right-justify) otherwise, and justification pads to the column width. -/
theorem C5_cells :
    renderCell (.error .attrExc) = .ok ([], false)
    ∧ (∀ (ρ : Type) (fs : List (ρ → Except PyExc CellVal)) (d : ρ),
      (∀ f ∈ fs, f d = .error .attrExc) →
      evalRow fs d = .ok (fs.map (fun _ => ([], false))))
    ∧ (∀ i : ℤ, renderCell (.ok (.int i)) = .ok (intStr i, false) ∧ '.' ∉ intStr i)
    ∧ (∀ q : ℚ, ∃ a b : Str,
      renderCell (.ok (.float q)) = .ok (a ++ '.' :: b, false)
      ∧ b.length = 3 ∧ '.' ∉ a ∧ '.' ∉ b)
    ∧ (∀ s : Str, renderCell (.ok (.str s)) = .ok (s, true))
    ∧ (∀ (w : ℕ) (s : Str),
      justify w 1 s = List.replicate (w - s.length) ' ' ++ s
      ∧ justify w (-1) s = s ++ List.replicate (w - s.length) ' '
      ∧ (justify w 1 s).length = max w s.length
      ∧ (justify w (-1) s).length = max w s.length)
    ∧ (∀ (ρ : Type) (selfCols : List Str) (funcs : List (ρ → Except PyExc CellVal))
        (getId : ρ → ℤ) (opts : Opts) (dcts : List ρ) (st : FmtSt)
        (rendered : List (List (Str × Bool))) (i : ℕ),
      opts.uniq = false → opts.wiki = false →
      evalRows funcs dcts = .ok rendered →
      formatCore selfCols funcs none getId opts dcts = .ok st →
      i < selfCols.length →
      st.signs.getD i 1 = (if colFlag i rendered then -1 else 1)
      ∧ (colFlag i rendered = true ↔ ∃ r ∈ rendered, (r.getD i ([], false)).2 = true)) := by
  refine ⟨rfl, ?_, ?_, ?_, fun s => rfl, ?_, ?_⟩
  · intro ρ fs d h
    exact evalRow_attrOk fs d h
  · intro i
    exact ⟨rfl, intStr_ne_dot i⟩
  · intro q
    refine ⟨(if round (q * 1000) < 0 then ['-'] else [])
        ++ natStr ((round (q * 1000)).natAbs / 1000),
      pad3 (natStr ((round (q * 1000)).natAbs % 1000)), ?_, ?_, ?_, ?_⟩
    · show (Except.ok (floatStr3 q, false) : Except PyExc (Str × Bool)) = _
      simp [floatStr3, List.append_assoc]
    · have hlt : (round (q * 1000)).natAbs % 1000 < 1000 := Nat.mod_lt _ (by norm_num)
      have hle := natStr_length_le3 _ hlt
      unfold pad3
      rw [List.length_append, List.length_replicate]
      omega
    · intro hmem
      rcases List.mem_append.mp hmem with h | h
      · split at h <;> simp at h
      · exact natStr_ne_dot _ h
    · intro hmem
      unfold pad3 at hmem
      rcases List.mem_append.mp hmem with h | h
      · have := List.eq_of_mem_replicate h
        simp at this
      · exact natStr_ne_dot _ h
  · intro w s
    have h1 : justify w 1 s = List.replicate (w - s.length) ' ' ++ s := by
      simp [justify]
    have h2 : justify w (-1) s = s ++ List.replicate (w - s.length) ' ' := by
      simp [justify]
    refine ⟨h1, h2, ?_, ?_⟩
    · rw [h1, List.length_append, List.length_replicate]
      omega
    · rw [h2, List.length_append, List.length_replicate]
      omega
  · intro ρ selfCols funcs getId opts dcts st rendered i hu hw hev hok hi
    obtain ⟨_, _, hsigns, _⟩ :=
      formatCore_simple_ok selfCols funcs getId opts dcts st rendered hu hw hev hok
    constructor
    · rw [hsigns, getD_map_range _ _ _ _ hi]
    · simp only [colFlag, List.any_eq_true]

/-- Witness for C5: the attribute-error clause applied to a one-column row. -/
theorem C5_cells_wit :
    evalRow [fun _ : Unit => (.error .attrExc : Except PyExc CellVal)] ()
      = .ok ([fun _ : Unit => (.error .attrExc : Except PyExc CellVal)].map
          (fun _ => ([], false))) :=
  C5_cells.2.1 Unit [fun _ => .error .attrExc] ()
    (by
      intro f hf
      rw [List.mem_singleton] at hf
      subst hf
      rfl)

/-! ## C6: uniq collapsing -/

/-- A rendered natural number has at least one digit. -/
theorem natStr_length_pos (n : ℕ) : 1 ≤ (natStr n).length := by
  rw [natStr_eq]
  split
  · simp
  · rename_i hn
    rw [List.length_map, List.length_reverse]
    have hne : Nat.digits 10 n ≠ [] := Nat.digits_ne_nil_iff_ne_zero.mpr hn
    exact List.length_pos.mpr hne

/-- Decimal length is monotone in the number. -/
theorem natStr_length_mono (a b : ℕ) (h : a ≤ b) :
    (natStr a).length ≤ (natStr b).length := by
  by_cases ha : a = 0
  · subst ha
    exact le_trans (by rw [natStr_eq]; simp) (natStr_length_pos b)
  · have hb : b ≠ 0 := by omega
    rw [natStr_eq, natStr_eq, if_neg ha, if_neg hb, List.length_map,
      List.length_reverse, List.length_map, List.length_reverse]
    exact Nat.le_digits_len_le 10 a b h

/-- Consuming a replicated run just accumulates into the counter. -/
theorem uniqGroups_replicate (r : List Str) (c m : ℕ) (rest : List (List Str)) :
    uniqGroups r c (List.replicate m r ++ rest) = uniqGroups r (c + m) rest := by
  induction m generalizing c with
  | zero => simp
  | succ m ih =>
    rw [List.replicate_succ, List.cons_append]
    simp only [uniqGroups]
    rw [ih]
    have he : c + 1 + m = c + (m + 1) := by omega
    simp [he]

/-- The collapsing loop recovers a group list from its expansion, provided
counts are positive and adjacent rows differ. -/
theorem uniqGroups_expand (gs : List (List Str × ℕ)) (r : List Str) (c : ℕ)
    (hpos : ∀ g ∈ gs, 1 ≤ g.2)
    (hch : List.Chain' (fun a b => a.1 ≠ b.1) ((r, c) :: gs)) :
    uniqGroups r c (expandGroups gs) = (r, c) :: gs := by
  induction gs generalizing r c with
  | nil => rfl
  | cons g gs ih =>
    obtain ⟨r', k⟩ := g
    have hk : 1 ≤ k := hpos (r', k) (List.mem_cons_self _ _)
    have hne : r ≠ r' := (List.chain'_cons.mp hch).1
    have hch' : List.Chain' (fun a b => a.1 ≠ b.1) ((r', k) :: gs) :=
      (List.chain'_cons.mp hch).2
    have hrep : List.replicate k r' = r' :: List.replicate (k - 1) r' := by
      cases k with
      | zero => omega
      | succ n => simp [List.replicate_succ]
    have hne' : ¬ (r' = r) := fun hh => hne hh.symm
    show uniqGroups r c ((List.map (fun g => List.replicate g.2 g.1) ((r', k) :: gs)).flatten)
      = (r, c) :: (r', k) :: gs
    rw [List.map_cons, List.flatten_cons, hrep, List.cons_append]
    simp only [uniqGroups, if_neg hne']
    rw [show (List.replicate (k - 1) r' ++ (List.map (fun g => List.replicate g.2 g.1) gs).flatten)
        = (List.replicate (k - 1) r' ++ expandGroups gs) from rfl]
    rw [uniqGroups_replicate]
    have h1k : 1 + (k - 1) = k := by omega
    rw [h1k]
    exact congrArg ((r, c) :: ·)
      (ih r' k (fun g hg => hpos g (List.mem_cons_of_mem _ hg)) hch')

/-- Claim C6: (i) a sorted run-structure of data rows — each group a row
repeated a positive number of times, adjacent groups distinct — collapses to
one entry per group carrying its repeat count, in order; (ii) the trailing
width update equals the decimal length of the LARGEST count; (iii) on the
concrete table with data rows `[A, A, B, B, B]` the formatter emits
`A` with count 2 followed by `B` with count 3, the trailing `repeat` column
carrying the counts. -/
theorem C6_uniqCollapse :
    (∀ (r0 : List Str) (k0 : ℕ) (gs : List (List Str × ℕ)),
      1 ≤ k0 → (∀ g ∈ gs, 1 ≤ g.2) →
      List.Chain' (fun a b => a.1 ≠ b.1) ((r0, k0) :: gs) →
      uniqGroups r0 1 (List.replicate (k0 - 1) r0 ++ expandGroups gs) = (r0, k0) :: gs)
    ∧ (∀ (g0 : List Str × ℕ) (gs : List (List Str × ℕ)),
      (g0 :: gs).foldl (fun a g => max a (natStr g.2).length) 0
        = (natStr ((g0 :: gs).foldl (fun a g => max a g.2) 0)).length)
    ∧ formatCore [chars "c"]
        [fun n : ℕ => .ok (.str (if n = 0 then chars "aa" else chars "bb"))] none
        (fun _ => 0) ⟨true, false, false, false, false, none, none, none⟩ [0, 0, 1, 1, 1]
      = .ok ⟨[chars "c", chars "repeat"],
             [[chars "aa", chars "2"], [chars "bb", chars "3"]],
             [2, 6], [-1, 1],
             [chars "c |repeat", chars "aa|     2", chars "bb|     3"],
             [0, 0, 0, 0, 0], [chars "c", chars "repeat"]⟩ := by
  refine ⟨?_, ?_, by decide⟩
  · intro r0 k0 gs hk0 hpos hch
    rw [uniqGroups_replicate]
    have h1k : 1 + (k0 - 1) = k0 := by omega
    rw [h1k]
    exact uniqGroups_expand gs r0 k0 hpos hch
  · intro g0 gs
    have hM := foldlMax_spec (fun g : List Str × ℕ => g.2) (g0 :: gs) 0
    have hL := foldlMax_spec (fun g : List Str × ℕ => (natStr g.2).length) (g0 :: gs) 0
    have hL1 : 1 ≤ (g0 :: gs).foldl (fun a g => max a (natStr g.2).length) 0 :=
      le_trans (natStr_length_pos g0.2) (hL.2.2 g0 (List.mem_cons_self _ _))
    refine le_antisymm ?_ ?_
    · rcases hL.1 with he | ⟨b, hb, he⟩
      · omega
      · rw [he]
        exact natStr_length_mono _ _ (hM.2.2 b hb)
    · rcases hM.1 with he | ⟨b, hb, he⟩
      · rw [he]
        exact le_trans (natStr_length_pos 0)
          (by simpa [natStr] using hL1)
      · rw [he]
        exact hL.2.2 b hb

/-- Witness for C6: the collapse clause applied to the run structure
`[A, A, B, B, B]` with `A = ['aa']`, `B = ['bb']`. -/
theorem C6_uniqCollapse_wit :
    uniqGroups [chars "aa"] 1
        (List.replicate (2 - 1) [chars "aa"] ++ expandGroups [([chars "bb"], 3)])
      = [([chars "aa"], 2), ([chars "bb"], 3)] :=
  C6_uniqCollapse.1 [chars "aa"] 2 [([chars "bb"], 3)] (by decide)
    (by
      intro g hg
      rw [List.mem_singleton] at hg
      subst hg
      decide)
    (List.chain'_cons.mpr ⟨by decide, List.chain'_singleton _⟩)

/-! ## C9: empty selection leaves output untouched -/

/-- Claim C9: when the selection produces zero records, `run` emits no table
line (not even a header), opens no extraction writer and writes no config —
even when an extract template is supplied — and prints no column listing;
with `--count` only the count line is printed. -/
theorem C9_emptySelection {ρ : Type}
    (funcsOf : List Str → List (ρ → Except PyExc CellVal)) (getId : ρ → ℤ)
    (kvKeys : ρ → List Str) (opts : Opts) (v : ℤ) (es : List Effect)
    (hok : runModel funcsOf getId kvKeys opts v [] = .ok es) :
    (∀ s, Effect.tableLine s ∉ es) ∧ (∀ t i, Effect.openWriter t i ∉ es)
    ∧ (∀ i, Effect.writeConfig i ∉ es) ∧ (∀ b c, Effect.printColumn b c ∉ es) := by
  unfold runModel at hok
  by_cases hc : opts.count = true
  · rw [if_pos hc] at hok
    simp only [List.length_nil, Except.ok.injEq] at hok
    subst hok
    refine ⟨?_, ?_, ?_, ?_⟩ <;> intros <;> simp
  · rw [if_neg hc] at hok
    simp only [List.length_nil, gt_iff_lt, Nat.lt_irrefl, if_false,
      Except.ok.injEq] at hok
    subst hok
    refine ⟨?_, ?_, ?_, ?_⟩ <;> intros <;> simp

/-- Witness for C9: `run` over an empty selection with an extract template
supplied, at verbosity 1. -/
theorem C9_emptySelection_wit :
    (∀ s, Effect.tableLine s ∉ ([] : List Effect))
    ∧ (∀ t i, Effect.openWriter t i ∉ ([] : List Effect))
    ∧ (∀ i, Effect.writeConfig i ∉ ([] : List Effect))
    ∧ (∀ b c, Effect.printColumn b c ∉ ([] : List Effect)) :=
  C9_emptySelection (ρ := Unit) (fun _ => []) (fun _ => 0) (fun _ => [])
    ⟨false, false, false, false, false, none, none, some (chars "out.xyz")⟩ 1 []
    (by decide)

/-! ## C10: `--list-columns` with `--quiet` -/

/-- Claim C10: with a non-empty selection, `--list-columns` and verbosity 0
(`--quiet`), the formatter is never invoked (`verbosity >= 1` fails), so the
local `columns` is never assigned, and the column-listing loop raises
`UnboundLocalError` instead of printing the column names. -/
theorem C10_unboundLocal {ρ : Type}
    (funcsOf : List Str → List (ρ → Except PyExc CellVal)) (getId : ρ → ℤ)
    (kvKeys : ρ → List Str) (opts : Opts) (rows : List ρ) (cols : List Str)
    (hcount : opts.count = false) (hlist : opts.listCols = true)
    (hrows : rows ≠ [])
    (hres : resolveColumns (some (joinPlusKeys (collectKeys kvKeys rows))) = .ok cols) :
    runModel funcsOf getId kvKeys opts 0 rows = .error .unboundLocal := by
  unfold runModel
  rw [hcount]
  simp only [Bool.false_eq_true, if_false]
  have hlen : rows.length > 0 := List.length_pos.mpr hrows
  rw [if_pos hlen]
  simp only [hlist, Bool.or_true, if_true]
  rw [hres]
  norm_num

/-- Witness for C10: a single-record run with `--list-columns --quiet` where
the key expansion is empty (so columns resolve to the defaults). -/
theorem C10_unboundLocal_wit :
    runModel (fun _ => []) (fun _ : Unit => 0) (fun _ => [])
      ⟨false, false, true, false, false, none, none, none⟩ 0 [()]
      = .error .unboundLocal :=
  C10_unboundLocal (fun _ => []) (fun _ : Unit => 0) (fun _ => [])
    ⟨false, false, true, false, false, none, none, none⟩ [()] defaultColumns
    rfl rfl (by decide) (by decide)

end DbDump
